import Mathlib

/-!
Shallow embedding of `src/scheduler.py` (the day-planner core of the
AI Routine Optimizer) together with proofs of its specified properties.

Timestamps are modelled as `Int` minutes measured from midnight of the
implicit common reference day on which both time strings are parsed
(`datetime` values on that day, ordered and shifted exactly as the
source shifts them with `timedelta`).  One calendar day is 1440 minutes.
-/

namespace Scheduler

/-- `@dataclass class Task` (scheduler.py, lines 5-9): name, duration in
minutes, priority. -/
structure Task where
  name : String
  duration : Int
  priority : Int
  deriving Repr, DecidableEq

/-- `@dataclass class Block` (scheduler.py, lines 11-15): start and end
timestamps (minutes on the reference day) and a label. -/
structure Block where
  start : Int
  «end» : Int
  name : String
  deriving Repr, DecidableEq

/-- Minutes in one calendar day (`timedelta(days=1)`). -/
def minutesPerDay : Int := 1440

/-- Digit-string to number: models how a run of ASCII digits inside a
time string is read as a decimal value.  `none` on an empty or
non-digit string. -/
def natOfDigits (cs : List Char) : Option Nat :=
  if cs ≠ [] ∧ cs.all Char.isDigit then
    some (cs.foldl (fun n c => 10 * n + (c.toNat - 48)) 0)
  else none

/-- Splits a character list on a separator character, keeping empty
fields, as tokenization of a time string does. -/
def splitOnChar (c : Char) : List Char → List (List Char)
  | [] => [[]]
  | x :: xs =>
    if x = c then [] :: splitOnChar c xs
    else
      match splitOnChar c xs with
      | [] => [[x]]
      | y :: ys => (x :: y) :: ys

/-- Reads an `H:MM` / `HH:MM` clock field into an (hour, minute) pair,
rejecting minutes ≥ 60.  Part of the model of `dateutil.parser.parse`
restricted to time-of-day strings. -/
def parseHM (hm : List Char) : Option (Nat × Nat) :=
  match splitOnChar ':' hm with
  | [h, m] =>
    match natOfDigits h, natOfDigits m with
    | some hv, some mv => if mv < 60 then some (hv, mv) else none
    | _, _ => none
  | _ => none

/-- Model of the external `dateutil.parser.parse` call (scheduler.py,
lines 18-19) restricted to time-of-day strings: a 24-hour `HH:MM`
string or a 12-hour `HH:MM AM/PM` string yields the minute of the
reference day; anything else is a parse failure.  The result is always
in `[0, 1440)`, exactly as a `datetime` on the reference day. -/
def parseTimeMinutes (s : String) : Option Nat :=
  match splitOnChar ' ' s.data with
  | [hm] =>
    match parseHM hm with
    | some (h, m) => if h < 24 then some (h * 60 + m) else none
    | none => none
  | [hm, ap] =>
    match parseHM hm with
    | some (h, m) =>
      if 1 ≤ h ∧ h ≤ 12 then
        if ap = ['A', 'M'] ∨ ap = ['a', 'm'] then some ((h % 12) * 60 + m)
        else if ap = ['P', 'M'] ∨ ap = ['p', 'm'] then
          some ((h % 12) * 60 + m + 720)
        else none
      else none
    | none => none
  | _ => none

/-- `parser.parse` as seen by `plan_day`: success gives the timestamp,
failure raises `ParserError("Unknown string format: %s")`, which the
core does not catch. -/
def parseTime (s : String) : Except String Int :=
  match parseTimeMinutes s with
  | some v => .ok (v : Int)
  | none => .error ("Unknown string format: " ++ s)

/-- `if end <= start: end += timedelta(days=1)` (scheduler.py,
lines 20-21): the resolved window end. -/
def resolveStop (start stop : Int) : Int :=
  if stop ≤ start then stop + minutesPerDay else stop

/-- Sort key `lambda t: (-t.priority, -t.duration)` (scheduler.py,
line 23). -/
def sortKey (t : Task) : Int × Int := (-t.priority, -t.duration)

/-- Python tuple comparison on the sort keys: non-strict lexicographic
order. -/
def taskRel (a b : Task) : Prop :=
  (sortKey a).1 < (sortKey b).1 ∨
    ((sortKey a).1 = (sortKey b).1 ∧ (sortKey a).2 ≤ (sortKey b).2)

instance taskRel.decRel : DecidableRel taskRel := fun a b => by
  unfold taskRel; infer_instance

instance taskRel.total : IsTotal Task taskRel :=
  ⟨fun a b => by unfold taskRel; omega⟩

instance taskRel.trans : IsTrans Task taskRel :=
  ⟨fun a b c hab hbc => by unfold taskRel at *; omega⟩

/-- `sorted(tasks, key=lambda t: (-t.priority, -t.duration))`
(scheduler.py, line 23).  Python's `sorted` is the stable sort under the
non-strict key comparison, which insertion sort with that comparison
implements exactly. -/
def sortTasks (tasks : List Task) : List Task :=
  tasks.insertionSort taskRel

/-- The loop state of `plan_day`: the running cursor `cur`, the focus
counter `focus`, and the accumulated `plan` list (scheduler.py,
lines 24-26). -/
structure PlanState where
  cur : Int
  focus : Int
  plan : List Block
  deriving Repr, DecidableEq

/-- The break-insertion step run before each task (scheduler.py,
lines 29-32): if the focus counter has reached `break_every` and the
break fits before the window end, append a "Short Break" block, advance
the cursor and reset the focus counter; otherwise leave the state
unchanged. -/
def breakStep (stop break_every break_len : Int) (s : PlanState) : PlanState :=
  if break_every ≤ s.focus ∧ s.cur + break_len ≤ stop then
    { cur := s.cur + break_len, focus := 0,
      plan := s.plan ++ [⟨s.cur, s.cur + break_len, "Short Break"⟩] }
  else s

/-- The task-placement step (scheduler.py, lines 34-38): if the full
task duration fits before the window end, append the task block, advance
the cursor and add the duration to the focus counter; otherwise drop the
task and leave the state unchanged. -/
def taskStep (stop : Int) (s : PlanState) (t : Task) : PlanState :=
  if s.cur + t.duration ≤ stop then
    { cur := s.cur + t.duration, focus := s.focus + t.duration,
      plan := s.plan ++ [⟨s.cur, s.cur + t.duration, t.name⟩] }
  else s

/-- One iteration of the `for t in tasks` loop (scheduler.py,
lines 28-38): the break check, then the placement attempt. -/
def planStep (stop break_every break_len : Int) (s : PlanState) (t : Task) :
    PlanState :=
  taskStep stop (breakStep stop break_every break_len s) t

/-- The state after the whole `for t in tasks` loop has run, starting
from `cur = start, focus = 0, plan = []` (scheduler.py, lines 23-38). -/
def loopState (start stop : Int) (tasks : List Task)
    (break_every break_len : Int) : PlanState :=
  (sortTasks tasks).foldl (planStep stop break_every break_len) ⟨start, 0, []⟩

/-- The body of `plan_day` after the two timestamps are resolved
(scheduler.py, lines 23-42): sort, run the loop, then append the
trailing "Free Time / Buffer" block when the cursor is still before the
window end. -/
def planCore (start stop : Int) (tasks : List Task)
    (break_every break_len : Int) : List Block :=
  let fs := loopState start stop tasks break_every break_len
  fs.plan ++ (if fs.cur < stop then [⟨fs.cur, stop, "Free Time / Buffer"⟩] else [])

/-- `plan_day(wake_time, sleep_time, tasks, break_every, break_len)`
(scheduler.py, lines 17-42).  A parse failure of either time string
propagates to the caller unmodified; otherwise the resolved window is
planned. -/
def plan_day (wake_time sleep_time : String) (tasks : List Task)
    (break_every break_len : Int) : Except String (List Block) :=
  match parseTime wake_time with
  | .error e => .error e
  | .ok start =>
    match parseTime sleep_time with
    | .error e => .error e
    | .ok stop => .ok (planCore start (resolveStop start stop) tasks
        break_every break_len)

/-- `%02d`-style zero-padded two-digit rendering, as `strftime` uses for
`%I` and `%M`. -/
def two (n : Nat) : String :=
  ⟨[Char.ofNat (48 + n / 10 % 10), Char.ofNat (48 + n % 10)]⟩

/-- `b.strftime('%I:%M %p')` (scheduler.py, line 45) on a timestamp `t`
in minutes: zero-padded 12-hour clock hour, minutes, and AM/PM suffix,
taken from the minute-of-day of the timestamp. -/
def fmtTime12 (t : Int) : String :=
  let md := (t % minutesPerDay).toNat
  let h := md / 60
  let m := md % 60
  let h12 := if h % 12 = 0 then 12 else h % 12
  two h12 ++ ":" ++ two m ++ " " ++ (if h < 12 then "AM" else "PM")

/-- One row of `format_blocks` output: the dict
`{"Time": ..., "Task": ...}` (scheduler.py, lines 45-46). -/
structure FormatRow where
  Time : String
  Task : String
  deriving Repr, DecidableEq

/-- `format_blocks(blocks)` (scheduler.py, lines 44-46). -/
def format_blocks (blocks : List Block) : List FormatRow :=
  blocks.map (fun b =>
    ⟨fmtTime12 b.start ++ "–" ++ fmtTime12 b.«end», b.name⟩)

/-- `Tiles lo hi bs`: the blocks `bs` exactly tile the interval
`[lo, hi]` - consecutive, each of positive length, starting at `lo` and
ending at `hi`. -/
def Tiles : Int → Int → List Block → Prop
  | lo, hi, [] => lo = hi
  | lo, hi, b :: bs => b.start = lo ∧ lo < b.«end» ∧ Tiles b.«end» hi bs

/-! ### Parsing bounds

A parsed time-of-day is a minute of the reference day, so it lies in
`[0, 1440)`. -/

theorem parseHM_minute_lt {hm : List Char} {h m : Nat}
    (hp : parseHM hm = some (h, m)) : m < 60 := by
  unfold parseHM at hp
  split at hp
  · split at hp
    · split at hp
      · simp only [Option.some.injEq, Prod.mk.injEq] at hp
        omega
      · exact absurd hp (by simp)
    · exact absurd hp (by simp)
  · exact absurd hp (by simp)

theorem parseTimeMinutes_lt {s : String} {v : Nat}
    (hp : parseTimeMinutes s = some v) : v < 1440 := by
  unfold parseTimeMinutes at hp
  split at hp
  · split at hp
    · rename_i heq
      have hm := parseHM_minute_lt heq
      split at hp
      · simp only [Option.some.injEq] at hp
        omega
      · exact absurd hp (by simp)
    · exact absurd hp (by simp)
  · split at hp
    · rename_i heq
      have hm := parseHM_minute_lt heq
      split at hp
      · rename_i hh
        split at hp
        · simp only [Option.some.injEq] at hp
          omega
        · split at hp
          · simp only [Option.some.injEq] at hp
            omega
          · exact absurd hp (by simp)
      · exact absurd hp (by simp)
    · exact absurd hp (by simp)
  · exact absurd hp (by simp)

theorem parseTime_bound {s : String} {v : Int} (hp : parseTime s = .ok v) :
    0 ≤ v ∧ v < 1440 := by
  unfold parseTime at hp
  split at hp
  · rename_i n heq
    have := parseTimeMinutes_lt heq
    simp only [Except.ok.injEq] at hp
    omega
  · exact absurd hp (by simp)

theorem resolveStop_gt {w s : Int} (hw : 0 ≤ w ∧ w < 1440)
    (hs : 0 ≤ s ∧ s < 1440) : w < resolveStop w s := by
  unfold resolveStop minutesPerDay
  split <;> omega

/-! ### Tiling lemmas -/

theorem Tiles.le {lo hi : Int} {bs : List Block} (h : Tiles lo hi bs) :
    lo ≤ hi := by
  induction bs generalizing lo with
  | nil => exact le_of_eq h
  | cons b bs ih =>
    obtain ⟨-, h2, h3⟩ := h
    exact le_trans (le_of_lt h2) (ih h3)

theorem Tiles.append {lo mid hi : Int} {bs : List Block}
    (h : Tiles lo mid bs) (nm : String) (hlt : mid < hi) :
    Tiles lo hi (bs ++ [{ start := mid, «end» := hi, name := nm }]) := by
  induction bs generalizing lo with
  | nil =>
    cases h
    exact ⟨rfl, hlt, rfl⟩
  | cons c cs ih =>
    obtain ⟨h1, h2, h3⟩ := h
    exact ⟨h1, h2, ih h3⟩

theorem Tiles.pos {lo hi : Int} {bs : List Block} (h : Tiles lo hi bs) :
    ∀ b ∈ bs, b.start < b.«end» := by
  induction bs generalizing lo with
  | nil => simp
  | cons c cs ih =>
    obtain ⟨h1, h2, h3⟩ := h
    intro b hb
    rcases List.mem_cons.mp hb with rfl | hb
    · omega
    · exact ih h3 b hb

theorem Tiles.chain {lo hi : Int} {bs : List Block} (h : Tiles lo hi bs) :
    bs.Chain' (fun a b => a.«end» = b.start) := by
  induction bs generalizing lo with
  | nil => exact List.chain'_nil
  | cons c cs ih =>
    obtain ⟨h1, h2, h3⟩ := h
    refine List.chain'_cons'.mpr ⟨?_, ih h3⟩
    intro b hb
    cases cs with
    | nil => simp at hb
    | cons d ds =>
      simp only [List.head?_cons, Option.mem_some_iff] at hb
      subst hb
      exact h3.1.symm

theorem Tiles.head {lo hi : Int} {bs : List Block} (h : Tiles lo hi bs) :
    ∀ b, bs.head? = some b → b.start = lo := by
  cases bs with
  | nil => simp
  | cons c cs =>
    intro b hb
    simp only [List.head?_cons, Option.some.injEq] at hb
    subst hb
    exact h.1

theorem Tiles.last {lo hi : Int} {bs : List Block} (h : Tiles lo hi bs) :
    ∀ b, bs.getLast? = some b → b.«end» = hi := by
  induction bs generalizing lo with
  | nil => simp
  | cons c cs ih =>
    obtain ⟨h1, h2, h3⟩ := h
    intro b hb
    cases cs with
    | nil =>
      simp only [List.getLast?_singleton, Option.some.injEq] at hb
      subst hb
      exact h3
    | cons d ds =>
      rw [List.getLast?_cons_cons] at hb
      exact ih h3 b hb

/-! ### Loop invariant: the accumulated plan tiles `[start, cur]` and the
cursor never passes the window end. -/

theorem breakStep_tiles (stop break_every break_len start : Int)
    (hbl : 0 < break_len) {s : PlanState} (h1 : Tiles start s.cur s.plan)
    (h2 : s.cur ≤ stop) :
    Tiles start (breakStep stop break_every break_len s).cur
        (breakStep stop break_every break_len s).plan ∧
      (breakStep stop break_every break_len s).cur ≤ stop := by
  unfold breakStep
  split
  · rename_i hc
    refine ⟨?_, hc.2⟩
    show Tiles start (s.cur + break_len) (s.plan ++
      [{ start := s.cur, «end» := s.cur + break_len, name := "Short Break" }])
    exact h1.append "Short Break" (by omega)
  · exact ⟨h1, h2⟩

theorem taskStep_tiles (stop start : Int) {t : Task} (hd : 0 < t.duration)
    {s : PlanState} (h1 : Tiles start s.cur s.plan) (h2 : s.cur ≤ stop) :
    Tiles start (taskStep stop s t).cur (taskStep stop s t).plan ∧
      (taskStep stop s t).cur ≤ stop := by
  unfold taskStep
  split
  · rename_i hc
    refine ⟨?_, hc⟩
    show Tiles start (s.cur + t.duration) (s.plan ++
      [{ start := s.cur, «end» := s.cur + t.duration, name := t.name }])
    exact h1.append t.name (by omega)
  · exact ⟨h1, h2⟩

theorem foldl_planStep_tiles (stop break_every break_len start : Int)
    (hbl : 0 < break_len) (l : List Task) (hdur : ∀ t ∈ l, 0 < t.duration)
    (s : PlanState) (h1 : Tiles start s.cur s.plan) (h2 : s.cur ≤ stop) :
    Tiles start (l.foldl (planStep stop break_every break_len) s).cur
        (l.foldl (planStep stop break_every break_len) s).plan ∧
      (l.foldl (planStep stop break_every break_len) s).cur ≤ stop := by
  induction l generalizing s with
  | nil => exact ⟨h1, h2⟩
  | cons t ts ih =>
    have hb := breakStep_tiles stop break_every break_len start hbl h1 h2
    have ht := taskStep_tiles stop start (hdur t (List.mem_cons_self t ts))
      hb.1 hb.2
    exact ih (fun u hu => hdur u (List.mem_cons_of_mem t hu)) _ ht.1 ht.2

theorem planCore_tiles {start stop : Int} (hss : start ≤ stop)
    {tasks : List Task} (hdur : ∀ t ∈ tasks, 0 < t.duration)
    (break_every break_len : Int) (hbl : 0 < break_len) :
    Tiles start stop (planCore start stop tasks break_every break_len) := by
  have hdur' : ∀ t ∈ sortTasks tasks, 0 < t.duration := fun t ht =>
    hdur t ((List.perm_insertionSort taskRel tasks).subset ht)
  obtain ⟨h1, h2⟩ := foldl_planStep_tiles stop break_every break_len start hbl
    (sortTasks tasks) hdur' ⟨start, 0, []⟩ rfl hss
  simp only [planCore, loopState]
  set F := (sortTasks tasks).foldl (planStep stop break_every break_len)
    ⟨start, 0, []⟩ with hF
  split
  · rename_i hc
    exact h1.append "Free Time / Buffer" hc
  · rename_i hc
    rw [List.append_nil]
    have he : F.cur = stop := le_antisymm h2 (le_of_not_lt hc)
    rw [← he]
    exact h1

/-! ### Further loop facts -/

theorem planStep_frozen (stop break_every break_len : Int)
    (hbl : 0 < break_len) {t : Task} (hd : 0 < t.duration) {s : PlanState}
    (hc : stop ≤ s.cur) :
    planStep stop break_every break_len s t = s := by
  have hb : breakStep stop break_every break_len s = s := by
    unfold breakStep
    rw [if_neg (by omega)]
  unfold planStep
  rw [hb]
  unfold taskStep
  rw [if_neg (by omega)]

theorem foldl_planStep_frozen (stop break_every break_len : Int)
    (hbl : 0 < break_len) (l : List Task) (hdur : ∀ t ∈ l, 0 < t.duration)
    {s : PlanState} (hc : stop ≤ s.cur) :
    l.foldl (planStep stop break_every break_len) s = s := by
  induction l with
  | nil => rfl
  | cons t ts ih =>
    show (ts.foldl (planStep stop break_every break_len)
      (planStep stop break_every break_len s t)) = s
    rw [planStep_frozen stop break_every break_len hbl
      (hdur t (List.mem_cons_self t ts)) hc]
    exact ih (fun u hu => hdur u (List.mem_cons_of_mem t hu))

theorem planStep_plan_nil (stop break_every break_len start : Int)
    (s : PlanState) (t : Task) (h : s.plan = [] → s.cur = start) :
    (planStep stop break_every break_len s t).plan = [] →
      (planStep stop break_every break_len s t).cur = start := by
  unfold planStep breakStep taskStep
  split <;> split <;> intro hp <;> simp_all

theorem foldl_planStep_plan_nil (stop break_every break_len start : Int)
    (l : List Task) (s : PlanState) (h : s.plan = [] → s.cur = start) :
    (l.foldl (planStep stop break_every break_len) s).plan = [] →
      (l.foldl (planStep stop break_every break_len) s).cur = start := by
  induction l generalizing s with
  | nil => exact h
  | cons t ts ih =>
    exact ih _ (planStep_plan_nil stop break_every break_len start s t h)

/-! ### Sorting facts -/

theorem pair_sublist_split {α : Type} {a b : α} {l : List α}
    (h : [a, b].Sublist l) : ∃ m1 m2 m3, l = m1 ++ a :: (m2 ++ b :: m3) := by
  induction l with
  | nil => simp at h
  | cons x xs ih =>
    cases h with
    | cons _ h2 =>
      obtain ⟨m1, m2, m3, rfl⟩ := ih h2
      exact ⟨x :: m1, m2, m3, rfl⟩
    | cons₂ _ h2 =>
      obtain ⟨m2, m3, rfl⟩ := List.append_of_mem (List.singleton_sublist.mp h2)
      exact ⟨[], m2, m3, rfl⟩

theorem taskRel_of_tie {a b : Task} (hp : a.priority = b.priority)
    (hd : a.duration = b.duration) : taskRel a b := by
  unfold taskRel sortKey
  omega

theorem taskRel_imp {x y : Task} (h : taskRel x y) :
    y.priority < x.priority ∨
      (x.priority = y.priority ∧ y.duration ≤ x.duration) := by
  unfold taskRel sortKey at h
  omega

/-! ### Formatting facts -/

theorem two_length (n : Nat) : (two n).length = 2 := rfl

theorem fmtTime12_shape (t : Int) :
    ∃ h12 m suf, 1 ≤ h12 ∧ h12 ≤ 12 ∧ m < 60 ∧ (suf = "AM" ∨ suf = "PM") ∧
      fmtTime12 t = two h12 ++ ":" ++ two m ++ " " ++ suf ∧
      (two h12).length = 2 ∧ (two m).length = 2 := by
  refine ⟨if (t % minutesPerDay).toNat / 60 % 12 = 0 then 12
      else (t % minutesPerDay).toNat / 60 % 12,
    (t % minutesPerDay).toNat % 60,
    if (t % minutesPerDay).toNat / 60 < 12 then "AM" else "PM",
    ?_, ?_, ?_, ?_, rfl, rfl, rfl⟩
  · split <;> omega
  · split <;> omega
  · omega
  · split
    · exact Or.inl rfl
    · exact Or.inr rfl

/-! ### The claims -/

/-- C1: for every pair of parseable wake/sleep time strings, every task
list with positive durations, and positive `break_every` and
`break_len`, the blocks returned by `plan_day` exactly tile the resolved
day window: every block has `start < end`, consecutive blocks abut, the
first block starts at the window start and the last block ends at the
window end (whenever any block is emitted), so the blocks are ordered
with no overlaps and no gaps. -/
theorem plan_day_tiles_window (wake sleep : String) (w s0 : Int)
    (hw : parseTime wake = .ok w) (hs : parseTime sleep = .ok s0)
    (tasks : List Task) (hdur : ∀ t ∈ tasks, 0 < t.duration)
    (break_every break_len : Int) (_hbe : 0 < break_every)
    (hbl : 0 < break_len) :
    ∃ bs, plan_day wake sleep tasks break_every break_len = .ok bs ∧
      (∀ b ∈ bs, b.start < b.«end») ∧
      bs.Chain' (fun x y => x.«end» = y.start) ∧
      (∀ b, bs.head? = some b → b.start = w) ∧
      (∀ b, bs.getLast? = some b → b.«end» = resolveStop w s0) := by
  have hlt : w < resolveStop w s0 :=
    resolveStop_gt (parseTime_bound hw) (parseTime_bound hs)
  have hT := planCore_tiles (le_of_lt hlt) hdur break_every break_len hbl
  refine ⟨_, ?_, hT.pos, hT.chain, hT.head, hT.last⟩
  unfold plan_day
  rw [hw, hs]

/-- Witness for C1: the spec's Scenario 1 input. -/
theorem plan_day_tiles_window_witness :
    ∃ bs, plan_day "06:30 AM" "10:30 PM"
        [{ name := "Write report", duration := 120, priority := 5 }] 60 5 =
        .ok bs ∧
      (∀ b ∈ bs, b.start < b.«end») ∧
      bs.Chain' (fun x y => x.«end» = y.start) ∧
      (∀ b, bs.head? = some b → b.start = 390) ∧
      (∀ b, bs.getLast? = some b → b.«end» = resolveStop 390 1350) :=
  plan_day_tiles_window "06:30 AM" "10:30 PM" 390 1350 rfl rfl
    [{ name := "Write report", duration := 120, priority := 5 }] (by decide)
    60 5 (by decide) (by decide)

/-- C2: each task is either placed as exactly one block whose length
equals its declared duration, starting at the cursor, exactly when
`cursor + duration ≤ window end` (the cursor then advances by the
duration and the focus counter grows by it), or, when it does not fit,
the task is dropped with the state unchanged - never truncated, split or
deferred. -/
theorem taskStep_places_exactly_or_drops (stop : Int) (s : PlanState)
    (t : Task) :
    (s.cur + t.duration ≤ stop →
      ∃ b, taskStep stop s t =
        { cur := s.cur + t.duration, focus := s.focus + t.duration,
          plan := s.plan ++ [b] } ∧
        b.start = s.cur ∧ b.«end» - b.start = t.duration ∧
        b.name = t.name) ∧
    (¬ s.cur + t.duration ≤ stop → taskStep stop s t = s) := by
  constructor
  · intro h
    refine ⟨{ start := s.cur, «end» := s.cur + t.duration, name := t.name },
      ?_, rfl, by show s.cur + t.duration - s.cur = t.duration; omega, rfl⟩
    unfold taskStep
    rw [if_pos h]
  · intro h
    unfold taskStep
    rw [if_neg h]

/-- Witness for C2: a fitting task is laid down as one exact block. -/
theorem taskStep_places_exactly_or_drops_witness :
    ∃ b, taskStep 600 ⟨0, 0, []⟩ { name := "A", duration := 30, priority := 3 } =
        { cur := 30, focus := 30, plan := [b] } ∧
      b.start = 0 ∧ b.«end» - b.start = 30 ∧ b.name = "A" :=
  (taskStep_places_exactly_or_drops 600 ⟨0, 0, []⟩
    { name := "A", duration := 30, priority := 3 }).1 (by decide)

/-- C3: immediately before each task-placement attempt, a break block
labeled "Short Break" of exactly `break_len` minutes is emitted at the
cursor if and only if the focus counter has reached `break_every` and
the break fits before the window end (the cursor then advances by
`break_len` and the focus counter resets to 0); a due break that does
not fit is skipped entirely, never shortened. -/
theorem breakStep_emits_iff (stop break_every break_len : Int)
    (s : PlanState) :
    (break_every ≤ s.focus ∧ s.cur + break_len ≤ stop →
      ∃ b, breakStep stop break_every break_len s =
        { cur := s.cur + break_len, focus := 0, plan := s.plan ++ [b] } ∧
        b.start = s.cur ∧ b.«end» - b.start = break_len ∧
        b.name = "Short Break") ∧
    (¬ (break_every ≤ s.focus ∧ s.cur + break_len ≤ stop) →
      breakStep stop break_every break_len s = s) ∧
    (∀ t, planStep stop break_every break_len s t =
      taskStep stop (breakStep stop break_every break_len s) t) := by
  refine ⟨?_, ?_, fun t => rfl⟩
  · intro h
    refine ⟨{ start := s.cur, «end» := s.cur + break_len,
              name := "Short Break" }, ?_, rfl,
      by show s.cur + break_len - s.cur = break_len; omega, rfl⟩
    unfold breakStep
    rw [if_pos h]
  · intro h
    unfold breakStep
    rw [if_neg h]

/-- Witness for C3: a due, fitting break is emitted at the cursor. -/
theorem breakStep_emits_iff_witness :
    ∃ b, breakStep 600 60 5 ⟨100, 60, []⟩ =
        { cur := 105, focus := 0, plan := [b] } ∧
      b.start = 100 ∧ b.«end» - b.start = 5 ∧ b.name = "Short Break" :=
  (breakStep_emits_iff 600 60 5 ⟨100, 60, []⟩).1 (by decide)

/-- C4: `plan_day` orders tasks by priority descending, then duration
descending, and the sort is stable: the sorted list is a permutation of
the input, any earlier task dominates any later one under that order,
and two tasks with equal priority and equal duration keep their relative
input order. -/
theorem sortTasks_orders_and_stable (tasks l1 l2 l3 : List Task)
    (a b : Task) (ht : tasks = l1 ++ a :: (l2 ++ b :: l3))
    (hp : a.priority = b.priority) (hd : a.duration = b.duration) :
    (sortTasks tasks).Perm tasks ∧
    (sortTasks tasks).Pairwise (fun x y => y.priority < x.priority ∨
      (x.priority = y.priority ∧ y.duration ≤ x.duration)) ∧
    ∃ m1 m2 m3, sortTasks tasks = m1 ++ a :: (m2 ++ b :: m3) := by
  refine ⟨List.perm_insertionSort taskRel tasks,
    (List.sorted_insertionSort taskRel tasks).imp taskRel_imp, ?_⟩
  have hmem : [a, b].Sublist tasks := by
    rw [ht]
    exact ((List.cons_sublist_cons.mpr (List.singleton_sublist.mpr
      (List.mem_append_right l2 (List.mem_cons_self b l3)))).trans
        (List.sublist_append_right l1 _))
  exact pair_sublist_split
    (List.pair_sublist_insertionSort (taskRel_of_tie hp hd) hmem)

/-- Witness for C4: two identical-key tasks keep their input order. -/
theorem sortTasks_orders_and_stable_witness :
    (sortTasks [{ name := "A", duration := 30, priority := 3 },
        { name := "B", duration := 30, priority := 3 }]).Perm
      [{ name := "A", duration := 30, priority := 3 },
        { name := "B", duration := 30, priority := 3 }] ∧
    (sortTasks [{ name := "A", duration := 30, priority := 3 },
        { name := "B", duration := 30, priority := 3 }]).Pairwise
      (fun x y => y.priority < x.priority ∨
        (x.priority = y.priority ∧ y.duration ≤ x.duration)) ∧
    ∃ m1 m2 m3,
      sortTasks [{ name := "A", duration := 30, priority := 3 },
          { name := "B", duration := 30, priority := 3 }] =
        m1 ++ { name := "A", duration := 30, priority := 3 } ::
          (m2 ++ { name := "B", duration := 30, priority := 3 } :: m3) :=
  sortTasks_orders_and_stable _ [] [] []
    { name := "A", duration := 30, priority := 3 }
    { name := "B", duration := 30, priority := 3 } rfl rfl rfl

/-- C5: if the parsed sleep timestamp is not strictly after the parsed
wake timestamp it is advanced by exactly one calendar day, after which
the window end is strictly after the window start for all parseable
inputs; equal wake and sleep times give a full 24-hour window. -/
theorem resolveStop_rollover (wake sleep : String) (w s0 : Int)
    (hw : parseTime wake = .ok w) (hs : parseTime sleep = .ok s0) :
    (s0 ≤ w → resolveStop w s0 = s0 + 1440) ∧
    (w < s0 → resolveStop w s0 = s0) ∧
    w < resolveStop w s0 ∧
    (w = s0 → resolveStop w s0 - w = 1440) := by
  have hw' := parseTime_bound hw
  have hs' := parseTime_bound hs
  unfold resolveStop minutesPerDay
  split <;>
    exact ⟨fun h => by omega, fun h => by omega, by omega, fun h => by omega⟩

/-- Witness for C5: the spec's Scenario 2, equal wake and sleep times
giving a 24-hour window. -/
theorem resolveStop_rollover_witness :
    ((420 : Int) ≤ 420 → resolveStop 420 420 = 420 + 1440) ∧
    ((420 : Int) < 420 → resolveStop 420 420 = 420) ∧
    (420 : Int) < resolveStop 420 420 ∧
    ((420 : Int) = 420 → resolveStop 420 420 - 420 = 1440) :=
  resolveStop_rollover "07:00 AM" "07:00 AM" 420 420 rfl rfl

/-- C6: with an empty task list `plan_day` returns exactly one
"Free Time / Buffer" block spanning the whole resolved window; in
general the trailing buffer block, from the loop's final cursor to the
window end, is emitted exactly when that cursor is strictly before the
window end. -/
theorem plan_day_buffer (wake sleep : String) (w s0 : Int)
    (hw : parseTime wake = .ok w) (hs : parseTime sleep = .ok s0)
    (break_every break_len : Int) :
    plan_day wake sleep [] break_every break_len =
      .ok [{ start := w, «end» := resolveStop w s0,
             name := "Free Time / Buffer" }] ∧
    ∀ start stop : Int, ∀ tasks : List Task,
      ((loopState start stop tasks break_every break_len).cur < stop →
        planCore start stop tasks break_every break_len =
          (loopState start stop tasks break_every break_len).plan ++
            [{ start := (loopState start stop tasks break_every break_len).cur,
               «end» := stop, name := "Free Time / Buffer" }]) ∧
      (stop ≤ (loopState start stop tasks break_every break_len).cur →
        planCore start stop tasks break_every break_len =
          (loopState start stop tasks break_every break_len).plan) := by
  constructor
  · have hlt : w < resolveStop w s0 :=
      resolveStop_gt (parseTime_bound hw) (parseTime_bound hs)
    unfold plan_day
    rw [hw, hs]
    have hplan : planCore w (resolveStop w s0) [] break_every break_len =
        [{ start := w, «end» := resolveStop w s0,
           name := "Free Time / Buffer" }] := by
      simp only [planCore, loopState, sortTasks, List.insertionSort,
        List.foldl_nil]
      rw [if_pos hlt]
      rfl
    exact congrArg Except.ok hplan
  · intro start stop tasks
    constructor
    · intro h
      simp only [planCore]
      rw [if_pos h]
    · intro h
      simp only [planCore]
      rw [if_neg (not_lt.mpr h), List.append_nil]

/-- Witness for C6: a concrete empty-task run is a single buffer
block. -/
theorem plan_day_buffer_witness :
    plan_day "06:30 AM" "10:30 PM" [] 60 5 =
      .ok [{ start := 390, «end» := 1350, name := "Free Time / Buffer" }] :=
  (plan_day_buffer "06:30 AM" "10:30 PM" 390 1350 rfl rfl 60 5).1

/-- C7: `plan_day` fails exactly when a time string fails to parse; the
parse error is propagated unmodified, no blocks are produced on failure,
and with both strings parseable it always succeeds (no other failure
mode). -/
theorem plan_day_error_iff (wake sleep : String) (tasks : List Task)
    (break_every break_len : Int) :
    (∀ e, parseTime wake = .error e →
      plan_day wake sleep tasks break_every break_len = .error e) ∧
    (∀ w e, parseTime wake = .ok w → parseTime sleep = .error e →
      plan_day wake sleep tasks break_every break_len = .error e) ∧
    (∀ w s0, parseTime wake = .ok w → parseTime sleep = .ok s0 →
      plan_day wake sleep tasks break_every break_len =
        .ok (planCore w (resolveStop w s0) tasks break_every break_len)) ∧
    (∀ e, plan_day wake sleep tasks break_every break_len = .error e →
      parseTime wake = .error e ∨ parseTime sleep = .error e) := by
  refine ⟨?_, ?_, ?_, ?_⟩
  · intro e he
    unfold plan_day
    rw [he]
  · intro w e hw he
    unfold plan_day
    rw [hw, he]
  · intro w s0 hw hs
    unfold plan_day
    rw [hw, hs]
  · intro e he
    unfold plan_day at he
    cases hpw : parseTime wake with
    | error e1 =>
      rw [hpw] at he
      simp only [Except.error.injEq] at he
      exact Or.inl (congrArg Except.error he)
    | ok w =>
      rw [hpw] at he
      cases hps : parseTime sleep with
      | error e2 =>
        rw [hps] at he
        simp only [Except.error.injEq] at he
        exact Or.inr (congrArg Except.error he)
      | ok s0 =>
        rw [hps] at he
        exact absurd he (by simp)

/-- Witness for C7: an unparseable wake string propagates its parse
error. -/
theorem plan_day_error_iff_witness :
    plan_day "gibberish" "10:30 PM" [] 60 5 =
      .error ("Unknown string format: " ++ "gibberish") :=
  (plan_day_error_iff "gibberish" "10:30 PM" [] 60 5).1
    ("Unknown string format: " ++ "gibberish") rfl

/-- A resolved window of positive length always yields at least one
block: if the loop placed nothing the cursor is still at the window
start and the buffer block is emitted. -/
theorem planCore_nonempty (start stop : Int) (hlt : start < stop)
    (tasks : List Task) (break_every break_len : Int) :
    planCore start stop tasks break_every break_len ≠ [] := by
  simp only [planCore, loopState]
  intro hcon
  obtain ⟨hp, hq⟩ := List.append_eq_nil.mp hcon
  have hcur := foldl_planStep_plan_nil stop break_every break_len start
    (sortTasks tasks) ⟨start, 0, []⟩ (fun _ => rfl) hp
  rw [if_pos (by rw [hcur]; exact hlt)] at hq
  exact absurd hq (by simp)

/-- C8: a resolved window of zero or negative length produces the empty
block sequence, not an error: no break or task fits, the loop leaves the
state untouched, and no buffer block is emitted. -/
theorem planCore_degenerate_empty (start stop : Int) (hss : stop ≤ start)
    (tasks : List Task) (hdur : ∀ t ∈ tasks, 0 < t.duration)
    (break_every break_len : Int) (hbl : 0 < break_len) :
    planCore start stop tasks break_every break_len = [] := by
  have hdur' : ∀ t ∈ sortTasks tasks, 0 < t.duration := fun t htm =>
    hdur t ((List.perm_insertionSort taskRel tasks).subset htm)
  simp only [planCore, loopState]
  rw [foldl_planStep_frozen stop break_every break_len hbl _ hdur' hss]
  show ([] : List Block) ++
    (if start < stop then
      [{ start := start, «end» := stop, name := "Free Time / Buffer" }]
    else []) = []
  rw [if_neg (not_lt.mpr hss)]
  rfl

/-- Witness for C8: a reversed window gives an empty plan. -/
theorem planCore_degenerate_empty_witness :
    planCore 100 50 [{ name := "A", duration := 30, priority := 3 }] 60 5 =
      [] :=
  planCore_degenerate_empty 100 50 (by decide)
    [{ name := "A", duration := 30, priority := 3 }] (by decide) 60 5
    (by decide)

/-- C9: `format_blocks` returns one row per block, in order, pairing the
block's label with the time range rendered from its two endpoints, each
endpoint in the fixed zero-padded 12-hour clock format with an AM/PM
suffix; it adds no other content. -/
theorem format_blocks_presentational (blocks : List Block) :
    (format_blocks blocks).length = blocks.length ∧
    (∀ i : Nat, (format_blocks blocks)[i]? = (blocks[i]?).map (fun b =>
      ⟨fmtTime12 b.start ++ "–" ++ fmtTime12 b.«end», b.name⟩)) ∧
    (∀ t : Int, ∃ h12 m suf, 1 ≤ h12 ∧ h12 ≤ 12 ∧ m < 60 ∧
      (suf = "AM" ∨ suf = "PM") ∧
      fmtTime12 t = two h12 ++ ":" ++ two m ++ " " ++ suf ∧
      (two h12).length = 2 ∧ (two m).length = 2) := by
  refine ⟨by simp [format_blocks], fun i => ?_, fmtTime12_shape⟩
  simp only [format_blocks, List.getElem?_map]

/-- C10: for all parseable wake/sleep strings and any task list and
break parameters, `plan_day` returns at least one block: the rollover
makes the window strictly positive, so the empty result of the
degenerate window is unreachable through `plan_day`. -/
theorem plan_day_returns_a_block (wake sleep : String) (w s0 : Int)
    (hw : parseTime wake = .ok w) (hs : parseTime sleep = .ok s0)
    (tasks : List Task) (break_every break_len : Int) :
    ∃ bs, plan_day wake sleep tasks break_every break_len = .ok bs ∧
      bs ≠ [] := by
  have hlt : w < resolveStop w s0 :=
    resolveStop_gt (parseTime_bound hw) (parseTime_bound hs)
  refine ⟨_, ?_, planCore_nonempty w (resolveStop w s0) hlt tasks
    break_every break_len⟩
  unfold plan_day
  rw [hw, hs]

/-- Witness for C10: even an impossible task list yields the buffer
block. -/
theorem plan_day_returns_a_block_witness :
    ∃ bs, plan_day "11:00 PM" "11:00 PM"
        [{ name := "Marathon", duration := 100000, priority := 5 }] 60 5 =
        .ok bs ∧ bs ≠ [] :=
  plan_day_returns_a_block "11:00 PM" "11:00 PM" 1380 1380 rfl rfl
    [{ name := "Marathon", duration := 100000, priority := 5 }] 60 5

end Scheduler
